import Mathlib

/-!
# pkger — verification of spec claims against a shallow embedding

This file embeds the parts of the `pkger` multi-distribution package
builder that the claims concern:

* `src/recipe/metadata.rs` — recipe metadata and the `deb_arch` /
  `rpm_arch` / `rpm_release` derivations;
* `pkger-core/src/build/scripts.rs` — the script runner (`run_script!`
  expansion and `execute_scripts`);
* `pkger-core/src/image/state.rs` — `ImageState` and the persisted
  `ImagesState` store (`try_from_path`, `update`, `save`, `exists`,
  `ImageState::new`);
* `src/job/build/rpm.rs` — the RPM assembler (`build_rpm`): artifact
  naming and the post-processing of `find` output that populates the
  spec's `%files` section.

Machine strings are modelled as Lean `String` / `List Char`; Rust's
`str::replace` and `str::trim_start_matches` and whitespace splitting
are re-implemented on `List Char` faithfully to their documented
behaviour on the (non-empty) patterns the code uses.  I/O against the
container runtime and the filesystem is modelled by explicit oracles /
state passing.
-/

namespace Pkger

/-! ## Character/string utilities used by the embedded code -/

/-- ASCII whitespace test, as used by Rust's `split_ascii_whitespace`. -/
def isAsciiWs (c : Char) : Bool :=
  c = ' ' || c = '\t' || c = '\n' || c = '\x0d' || c = '\x0c'

theorem length_dropWhile_le_self (p : α → Bool) (l : List α) :
    (l.dropWhile p).length ≤ l.length := by
  induction l with
  | nil => simp
  | cons a l ih =>
    by_cases h : p a
    · simp [List.dropWhile, h]; omega
    · simp [List.dropWhile, h]

/-- Rust `str::split_ascii_whitespace` on a character list: maximal runs of
non-whitespace characters, in order; empty tokens never occur. -/
def splitWs (s : List Char) : List (List Char) :=
  match s with
  | [] => []
  | c :: rest =>
    if isAsciiWs c then splitWs rest
    else (c :: rest.takeWhile (fun x => !isAsciiWs x)) ::
      splitWs (rest.dropWhile (fun x => !isAsciiWs x))
  termination_by s.length
  decreasing_by
  · simp
  · have := length_dropWhile_le_self (fun x => !isAsciiWs x) rest
    simp; omega

/-- Rust `str::trim_start_matches('.')`: remove every leading `'.'`. -/
def trimStartDots (s : List Char) : List Char :=
  s.dropWhile (fun c => c = '.')

/-- Rust `str::replace(pat, repl)` on character lists, for a non-empty
pattern: scan left to right; at each position, if `pat` is a prefix,
emit `repl` and continue after the matched occurrence, otherwise keep
the character.  (The code only ever calls this with the non-empty
literal patterns `$PKGER_BLD_DIR` and `$PKGER_OUT_DIR`.) -/
def rustReplace (pat repl : List Char) (s : List Char) : List Char :=
  match s with
  | [] => []
  | c :: rest =>
    if pat.isPrefixOf (c :: rest) && !pat.isEmpty then
      repl ++ rustReplace pat repl (rest.drop (pat.length - 1))
    else
      c :: rustReplace pat repl rest
  termination_by s.length
  decreasing_by
  · have := rest.length_drop (pat.length - 1)
    simp; omega
  · simp

/-! ## Recipe model — `src/recipe/metadata.rs` -/

/-- The build-target of an image.
Modelled from the spec: `src/recipe/metadata/target.rs` is not in the
sources; §3 gives the set `{rpm, deb, gzip}`. -/
inductive BuildTarget where
  | rpm
  | deb
  | gzip
deriving DecidableEq, Repr

/-- An image paired with a build target (`ImageTarget`).
Modelled from the spec: `src/recipe/metadata/image.rs` is not in the
sources; §3 describes `images` as a list of pairs of image name and
build target. -/
structure ImageTarget where
  image : String
  build_target : BuildTarget
deriving DecidableEq, Repr

/-- A git source (`GitSource`).
Modelled from the spec: `src/recipe/metadata/git.rs` is not in the
sources; §3 gives url + branch with default branch `master`. -/
structure GitSource where
  url : String
  branch : String
deriving DecidableEq, Repr

/-- `Dependencies` — a mapping from optional image-name filter to package
names.  Modelled from the spec: `src/deps.rs` is not in the sources; §9
gives `Dependencies = { default: [String], per_image: map<String,[String]> }`.
The structure is opaque to every claim below. -/
structure Dependencies where
  defaultDeps : List String
  per_image : List (String × List String)
deriving DecidableEq, Repr

/-- `DebInfo` from `src/recipe/metadata.rs`. -/
structure DebInfo where
  priority : Option String
deriving DecidableEq, Repr

/-- `RpmInfo` from `src/recipe/metadata.rs`. -/
structure RpmInfo where
  obsoletes : Option Dependencies
  release : Option String
  epoch : Option String
  vendor : Option String
  icon : Option String
  summary : Option String
  pre_script : Option String
  post_script : Option String
  preun_script : Option String
  postun_script : Option String
  config_noreplace : Option String
deriving DecidableEq, Repr

/-- `Metadata` from `src/recipe/metadata.rs` (the nested-block form). -/
structure Metadata where
  name : String
  version : String
  description : String
  license : String
  images : List ImageTarget
  maintainer : Option String
  arch : Option String
  source : Option String
  git : Option GitSource
  skip_default_deps : Option Bool
  exclude : Option (List String)
  group : Option String
  build_depends : Option Dependencies
  depends : Option Dependencies
  conflicts : Option Dependencies
  provides : Option Dependencies
  deb : Option DebInfo
  rpm : Option RpmInfo
deriving DecidableEq, Repr

namespace Metadata

/-- `Metadata::deb_arch` (`src/recipe/metadata.rs:157-168`). -/
def deb_arch (m : Metadata) : String :=
  match m.arch with
  | some arch =>
    if arch = "amd64" || arch = "x86_64" then "amd64"
    else if arch = "x86" || arch = "i386" then "i386"
    else arch
  | none => "all"

/-- `Metadata::rpm_arch` (`src/recipe/metadata.rs:171-182`). -/
def rpm_arch (m : Metadata) : String :=
  match m.arch with
  | some arch =>
    if arch = "amd64" || arch = "x86_64" then "x86_64"
    else if arch = "x86" || arch = "i386" then "x86"
    else arch
  | none => "noarch"

/-- `Metadata::rpm_release` (`src/recipe/metadata.rs:185-193`). -/
def rpm_release (m : Metadata) : String :=
  match m.rpm with
  | some rpm =>
    match rpm.release with
    | some release => release
    | none => "0"
  | none => "0"

end Metadata

/-! ## OS and recipe targets -/

/-- An operating system record (`Os{distro, version?}`).
Modelled from the spec: the `Os` type's source is not under `src/`;
§4.4c gives `Os{distro, version?}`. -/
structure Os where
  distro : String
  version : Option String
deriving DecidableEq, Repr

/-- The cache key for image state (`RecipeTarget`).
Modelled from the spec: the type's source is not under `src/`; §3 gives
the components `(recipe_name, image_name, build_target)` with
componentwise equality.  The `image_os` annotation carries the image's
declared OS, which `ImageState::new` consults via `target.image_os()`. -/
structure RecipeTarget where
  recipe_name : String
  image : String
  build_target : BuildTarget
  image_os : Option Os
deriving DecidableEq, Repr

/-! ## Scripts — `pkger-core/src/build/scripts.rs` -/

/-- One step of a script phase.
Modelled from the spec: the step type's source is not under `src/`; §3
gives `cmd`, an optional `images` allow-list and an optional
build-target filter. -/
structure Command where
  cmd : String
  images : Option (List String)
  target : Option BuildTarget
deriving DecidableEq, Repr

namespace Command

/-- Modelled from the spec: whether the step carries a build-target
filter (`cmd.has_target_specified()` in `scripts.rs:41`). -/
def has_target_specified (c : Command) : Bool :=
  c.target.isSome

/-- Modelled from the spec: `cmd.should_run_on(t)` (`scripts.rs:48`).
§3: the optional build-target filter determines on which targets the
step runs; §8.4: with a filter `F` the step executes iff
`F == T.build_target`; without a filter the step runs on every target. -/
def should_run_on (c : Command) (t : BuildTarget) : Bool :=
  match c.target with
  | none => true
  | some f => f = t

end Command

/-- A script phase: optional working directory and shell override plus
the ordered steps (spec §3; consumed by `run_script!`). -/
structure Script where
  working_dir : Option String
  shell : Option String
  steps : List Command
deriving DecidableEq, Repr

/-- A recipe's script phases (spec §3: `configure_script?`,
`build_script` required, `install_script?`), as accessed by
`execute_scripts` (`scripts.rs:68-91`). -/
structure Recipe where
  metadata : Metadata
  configure_script : Option Script
  build_script : Script
  install_script : Option Script
deriving DecidableEq, Repr

/-- Exec options assembled by `run_script!`: the command, the resolved
working directory and the optional shell override (spec §4.3). -/
structure ExecOpts where
  cmd : String
  working_dir : Option String
  shell : Option String
deriving DecidableEq, Repr

/-- The build context as seen by the script runner: the two canonical
interior paths, the current target and the recipe
(`$ctx.build_ctx` in `scripts.rs`). -/
structure BuildCtx where
  container_bld_dir : String
  container_out_dir : String
  target : RecipeTarget
  recipe : Recipe

/-- The error of a failed build step
(`BuildStepFailed{cmd, exit_code, stderr}`, spec §4.3/§7). -/
structure BuildStepError where
  cmd : String
  exit_code : Int
  errOutput : List String
deriving DecidableEq, Repr

/-- Resolution of the effective working directory of a phase
(`scripts.rs:17-29`): a phase-supplied directory has `$PKGER_BLD_DIR`
replaced by the container build dir and then `$PKGER_OUT_DIR` replaced
by the container output dir; a phase without `working_dir` uses the
phase default unchanged. -/
def resolveWorkingDir (wd : Option String) (defaultDir bld out : String) : String :=
  match wd with
  | some dir =>
    String.mk (rustReplace "$PKGER_OUT_DIR".toList out.toList
      (rustReplace "$PKGER_BLD_DIR".toList bld.toList dir.toList))
  | none => defaultDir

/-- The per-step filter of `run_script!` (`scripts.rs:36-51`): skip when
the allow-list excludes the current image and no target filter is
present; then skip when `should_run_on` rejects the build target. -/
def stepExecuted (c : Command) (target : RecipeTarget) : Bool :=
  (match c.images with
   | some imgs =>
     if !imgs.contains target.image then c.has_target_specified else true
   | none => true)
  && c.should_run_on target.build_target

/-- The step loop of `run_script!` (`scripts.rs:36-56`): run the steps
in declared order through `checked_exec`, collecting the attempted exec
options; a failing step aborts the loop with its error. -/
def runScriptSteps (steps : List Command) (opts0 : ExecOpts)
    (target : RecipeTarget) (exec : ExecOpts → Except BuildStepError Unit) :
    List ExecOpts × Option BuildStepError :=
  match steps with
  | [] => ([], none)
  | c :: rest =>
    if stepExecuted c target then
      let opts := { opts0 with cmd := c.cmd }
      match exec opts with
      | .ok _ =>
        (opts :: (runScriptSteps rest opts0 target exec).1,
          (runScriptSteps rest opts0 target exec).2)
      | .error e => ([opts], some e)
    else
      runScriptSteps rest opts0 target exec

/-- One expansion of `run_script!` (`scripts.rs:8-63`): build the base
exec options (resolved working dir, optional shell), then run the steps. -/
def runScript (script : Script) (defaultDir : String) (ctx : BuildCtx)
    (exec : ExecOpts → Except BuildStepError Unit) :
    List ExecOpts × Option BuildStepError :=
  let opts0 : ExecOpts :=
    { cmd := ""
      working_dir := some (resolveWorkingDir script.working_dir defaultDir
        ctx.container_bld_dir ctx.container_out_dir)
      shell := script.shell }
  runScriptSteps script.steps opts0 ctx.target exec

/-- A script phase name. -/
inductive Phase where
  | configure
  | build
  | install
deriving DecidableEq, Repr

/-- Numeric position of a phase in the fixed order. -/
def Phase.idx : Phase → Nat
  | .configure => 0
  | .build => 1
  | .install => 2

/-- The outcome of one phase of `execute_scripts` (`scripts.rs:68-91`):
`configure` and `install` are skipped (empty trace, no error) when
absent from the recipe and run with the matching default directory
otherwise (`container_bld_dir` for configure/build, `container_out_dir`
for install). -/
def phaseResult (ctx : BuildCtx)
    (exec : ExecOpts → Except BuildStepError Unit) :
    Phase → List ExecOpts × Option BuildStepError
  | .configure =>
    match ctx.recipe.configure_script with
    | some s => runScript s ctx.container_bld_dir ctx exec
    | none => ([], none)
  | .build => runScript ctx.recipe.build_script ctx.container_bld_dir ctx exec
  | .install =>
    match ctx.recipe.install_script with
    | some s => runScript s ctx.container_out_dir ctx exec
    | none => ([], none)

/-- `execute_scripts` (`scripts.rs:65-97`): run `configure` (when
present), then `build`, then `install` (when present); a failing step's
error propagates immediately, so no later step of any phase runs.  The
result pairs the trace of attempted execs (tagged by phase) with the
propagated error, if any. -/
def executeScripts (ctx : BuildCtx)
    (exec : ExecOpts → Except BuildStepError Unit) :
    List (Phase × ExecOpts) × Option BuildStepError :=
  let confRes := phaseResult ctx exec .configure
  let confTrace := confRes.1.map (fun o => (Phase.configure, o))
  match confRes.2 with
  | some e => (confTrace, some e)
  | none =>
    let buildRes := phaseResult ctx exec .build
    let buildTrace := buildRes.1.map (fun o => (Phase.build, o))
    match buildRes.2 with
    | some e => (confTrace ++ buildTrace, some e)
    | none =>
      let instRes := phaseResult ctx exec .install
      let instTrace := instRes.1.map (fun o => (Phase.install, o))
      (confTrace ++ buildTrace ++ instTrace, instRes.2)

/-! ## Image state — `pkger-core/src/image/state.rs` -/

/-- Saved state of an image (`ImageState`, `state.rs:18-29`).
`timestamp` models the `SystemTime` as signed nanoseconds since the
Unix epoch (a `SystemTime` may lie before the epoch); `details` models
the opaque runtime-supplied `ImageDetails` inspect record. -/
structure ImageState where
  id : String
  image : String
  tag : String
  os : Os
  timestamp : Int
  details : String
  deps : List String
  simple : Bool
deriving DecidableEq, Repr

/-- Errors of the container runtime, as observed through `inspect` /
`find_os`: a connection failure, a missing object, or anything else. -/
inductive DockerError where
  | connectionFailed
  | notFound
  | other (msg : String)
deriving DecidableEq, Repr

/-- The container runtime handle (`Docker`), modelled as oracles for the
two calls `state.rs` makes: image inspect (returning the opaque details
record) and OS detection (`find_os` from `crate::image`, whose source is
not under `src/`; spec §4.4c: parse an `/etc/os-release` style file into
`Os{distro, version?}`). -/
structure Docker where
  inspect : String → Except DockerError String
  detectOs : String → Except DockerError Os

/-- `timestamp.duration_since(UNIX_EPOCH).unwrap_or_default().as_secs()`
(`state.rs:44-47`): a timestamp before the epoch yields `Err`, which
`unwrap_or_default` turns into the zero duration; otherwise whole
seconds of the duration since the epoch. -/
def timestampSecs (t : Int) : Nat :=
  if t < 0 then 0 else t.toNat / 1000000000

/-- The name computed by `ImageState::new` (`state.rs:41-48`):
`{image}-{seconds since the Unix epoch}`. -/
def imageStateNameFor (image : String) (t : Int) : String :=
  image ++ "-" ++ toString (timestampSecs t)

/-- `ImageState::new` (`state.rs:32-74`): compute the span name from the
image and timestamp, resolve the OS (declared on the target, else
detected), inspect the image for its details, and assemble the state. -/
def ImageState.new (id : String) (target : RecipeTarget) (tag : String)
    (timestamp : Int) (docker : Docker) (deps : List String)
    (simple : Bool) : Except DockerError ImageState :=
  let _name := imageStateNameFor target.image timestamp
  do
    let os ← match target.image_os with
      | some os => pure os
      | none => docker.detectOs id
    let details ← docker.inspect id
    pure { id := id, image := target.image, os := os, tag := tag,
           timestamp := timestamp, details := details, deps := deps,
           simple := simple }

/-- `ImageState::exists` (`state.rs:77-85`): true iff the runtime
inspect call succeeds; every error becomes `false`. -/
def ImageState.exists (st : ImageState) (docker : Docker) : Bool :=
  match docker.inspect st.id with
  | .ok _ => true
  | .error _ => false

/-- The persisted store (`ImagesState`, `state.rs:90-97`): the map from
recipe targets to image states (the `HashMap` modelled as an
association list) plus the path of the backing file. -/
structure ImagesState where
  images : List (RecipeTarget × ImageState)
  state_file : String
deriving DecidableEq, Repr

/-- `DEFAULT_STATE_FILE` (`state.rs:16`). -/
def DEFAULT_STATE_FILE : String := ".pkger.state"

/-- `ImagesState::default` (`state.rs:99-106`). -/
def ImagesState.default : ImagesState :=
  { images := [], state_file := DEFAULT_STATE_FILE }

/-- `ImagesState::update` (`state.rs:124-126`): `HashMap::insert` —
replace the binding of the key if present, else add it. -/
def ImagesState.update (s : ImagesState) (target : RecipeTarget)
    (state : ImageState) : ImagesState :=
  { s with images :=
      (s.images.filter (fun p => p.1 ≠ target)) ++ [(target, state)] }

/-! ### The self-describing binary encoding (`serde_cbor`)

`save` serializes the whole `ImagesState` with `serde_cbor::to_vec` and
`try_from_path` decodes it with `serde_cbor::from_slice` (which rejects
trailing data).  The encoding is modelled as a length-prefixed,
schema-free token stream, matching the spec's description (§3:
"self-describing binary encoding (length-prefixed, schema-free)"). -/

def encNat (n : Nat) : List Nat := [n]

def encBool (b : Bool) : List Nat := [if b then 1 else 0]

def encInt (i : Int) : List Nat := [if i < 0 then 1 else 0, i.natAbs]

def encString (s : String) : List Nat :=
  s.toList.length :: s.toList.map Char.toNat

def encList (enc : α → List Nat) (l : List α) : List Nat :=
  l.length :: (l.map enc).flatten

def encOption (enc : α → List Nat) : Option α → List Nat
  | none => [0]
  | some x => 1 :: enc x

def decNat : List Nat → Option (Nat × List Nat)
  | n :: rest => some (n, rest)
  | [] => none

def decBool : List Nat → Option (Bool × List Nat)
  | b :: rest =>
    if b = 0 then some (false, rest)
    else if b = 1 then some (true, rest)
    else none
  | [] => none

def decInt : List Nat → Option (Int × List Nat)
  | s :: m :: rest =>
    if s = 0 then some ((m : Int), rest)
    else if s = 1 then some (-(m : Int), rest)
    else none
  | _ => none

def decChars (n : Nat) (l : List Nat) : Option (List Char × List Nat) :=
  match n with
  | 0 => some ([], l)
  | n + 1 =>
    match l with
    | [] => none
    | k :: rest =>
      if h : k.isValidChar then
        match decChars n rest with
        | some (cs, r) => some (Char.ofNatAux k h :: cs, r)
        | none => none
      else none

def decString : List Nat → Option (String × List Nat)
  | n :: rest =>
    match decChars n rest with
    | some (cs, r) => some (String.mk cs, r)
    | none => none
  | [] => none

def decListN (dec : List Nat → Option (α × List Nat)) :
    Nat → List Nat → Option (List α × List Nat)
  | 0, l => some ([], l)
  | n + 1, l =>
    match dec l with
    | some (x, rest) =>
      match decListN dec n rest with
      | some (xs, r) => some (x :: xs, r)
      | none => none
    | none => none

def decList (dec : List Nat → Option (α × List Nat)) :
    List Nat → Option (List α × List Nat)
  | n :: rest => decListN dec n rest
  | [] => none

def decOption (dec : List Nat → Option (α × List Nat)) :
    List Nat → Option (Option α × List Nat)
  | t :: rest =>
    if t = 0 then some (none, rest)
    else if t = 1 then
      match dec rest with
      | some (x, r) => some (some x, r)
      | none => none
    else none
  | [] => none

def encBuildTarget : BuildTarget → List Nat
  | .rpm => [0]
  | .deb => [1]
  | .gzip => [2]

def decBuildTarget : List Nat → Option (BuildTarget × List Nat)
  | t :: rest =>
    if t = 0 then some (.rpm, rest)
    else if t = 1 then some (.deb, rest)
    else if t = 2 then some (.gzip, rest)
    else none
  | [] => none

def encOs (os : Os) : List Nat :=
  encString os.distro ++ encOption encString os.version

def decOs (l : List Nat) : Option (Os × List Nat) :=
  match decString l with
  | some (d, r1) =>
    match decOption decString r1 with
    | some (v, r2) => some ({ distro := d, version := v }, r2)
    | none => none
  | none => none

def encRecipeTarget (t : RecipeTarget) : List Nat :=
  encString t.recipe_name ++ encString t.image ++
    encBuildTarget t.build_target ++ encOption encOs t.image_os

def decRecipeTarget (l : List Nat) : Option (RecipeTarget × List Nat) :=
  match decString l with
  | some (rn, r1) =>
    match decString r1 with
    | some (im, r2) =>
      match decBuildTarget r2 with
      | some (bt, r3) =>
        match decOption decOs r3 with
        | some (os, r4) =>
          some ({ recipe_name := rn, image := im, build_target := bt,
                  image_os := os }, r4)
        | none => none
      | none => none
    | none => none
  | none => none

def encImageState (st : ImageState) : List Nat :=
  encString st.id ++ encString st.image ++ encString st.tag ++
    encOs st.os ++ encInt st.timestamp ++ encString st.details ++
    encList encString st.deps ++ encBool st.simple

def decImageState (l : List Nat) : Option (ImageState × List Nat) :=
  match decString l with
  | some (id, r1) =>
    match decString r1 with
    | some (im, r2) =>
      match decString r2 with
      | some (tg, r3) =>
        match decOs r3 with
        | some (os, r4) =>
          match decInt r4 with
          | some (ts, r5) =>
            match decString r5 with
            | some (dt, r6) =>
              match decList decString r6 with
              | some (dp, r7) =>
                match decBool r7 with
                | some (sp, r8) =>
                  some ({ id := id, image := im, tag := tg, os := os,
                          timestamp := ts, details := dt, deps := dp,
                          simple := sp }, r8)
                | none => none
              | none => none
            | none => none
          | none => none
        | none => none
      | none => none
    | none => none
  | none => none

def encPair (encA : α → List Nat) (encB : β → List Nat) (p : α × β) :
    List Nat :=
  encA p.1 ++ encB p.2

def decPair (decA : List Nat → Option (α × List Nat))
    (decB : List Nat → Option (β × List Nat)) (l : List Nat) :
    Option ((α × β) × List Nat) :=
  match decA l with
  | some (a, r1) =>
    match decB r1 with
    | some (b, r2) => some ((a, b), r2)
    | none => none
  | none => none

/-- Encoding of a whole `ImagesState` value (`serde_cbor::to_vec(&self)`
serializes both fields). -/
def encImagesState (s : ImagesState) : List Nat :=
  encList (encPair encRecipeTarget encImageState) s.images ++
    encString s.state_file

def decImagesState (l : List Nat) : Option (ImagesState × List Nat) :=
  match decList (decPair decRecipeTarget decImageState) l with
  | some (im, r1) =>
    match decString r1 with
    | some (sf, r2) => some ({ images := im, state_file := sf }, r2)
    | none => none
  | none => none

/-! ### The filesystem model and `try_from_path` / `save` -/

/-- A filesystem: path → file contents (token stream), `none` when the
file does not exist. -/
def FS : Type := String → Option (List Nat)

/-- Writing (creating or truncating) a file. -/
def fsWrite (fs : FS) (path : String) (contents : List Nat) : FS :=
  fun q => if q = path then some contents else fs q

/-- The error surfaced when the persisted cache fails to decode
(`StateFileCorrupt`, spec §7). -/
inductive StateError where
  | decodeFailed
deriving DecidableEq, Repr

/-- `ImagesState::try_from_path` (`state.rs:110-121`): a missing file is
created (empty) and yields the empty map with the given path; an
existing file is read and decoded, a decode failure (including trailing
garbage, which `serde_cbor::from_slice` rejects) is an error. -/
def ImagesState.try_from_path (path : String) (fs : FS) :
    Except StateError (ImagesState × FS) :=
  match fs path with
  | none =>
    .ok ({ images := [], state_file := path }, fsWrite fs path [])
  | some bs =>
    match decImagesState bs with
    | some (st, []) => .ok (st, fs)
    | _ => .error .decodeFailed

/-- `ImagesState::save` (`state.rs:129-141`): when the state file does
not exist, only create it (empty); when it exists, overwrite it with
the complete encoding of `self`. -/
def ImagesState.save (s : ImagesState) (fs : FS) : FS :=
  match fs s.state_file with
  | none => fsWrite fs s.state_file []
  | some _ => fsWrite fs s.state_file (encImagesState s)

/-! ## RPM assembly — `src/job/build/rpm.rs` -/

/-- Modelled from the spec: `Metadata::release`, called by `build_rpm`
(`rpm.rs:23`) but absent from the sources under `src/`; §4.6 step 4
renders the spec with release = `rpm_release()`, the recipe's RPM
release defaulting to `"0"`. -/
def Metadata.release (m : Metadata) : String :=
  m.rpm_release

/-- The post-processing of the `find` output in `build_rpm`
(`rpm.rs:86-93` and `rpm.rs:103-110`): join the stdout chunks with no
separator, split on ASCII whitespace, drop empty tokens, and strip every
leading `'.'` from each token (`trim_start_matches('.')`). -/
def processFindOutput (stdout : List String) : List String :=
  ((splitWs (stdout.map String.toList).flatten).filter
    (fun s => !s.isEmpty)).map (fun s => String.mk (trimStartDots s))

/-- Modelled from the spec: the `%files` section of the rendered spec
(`Recipe::as_rpm_spec(...).render()`, whose source is not under `src/`);
§4.6 step 3: the section is populated with the enumerated entries —
the file entries and the directory entries handed to `as_rpm_spec`. -/
def rpmSpecFilesSection (files dirs : List String) : List String :=
  files ++ dirs

/-- The container-session operations `build_rpm` performs, as oracles:
`create_dirs`, `checked_exec` (command and optional working directory,
returning the stdout chunks), `copy_file_into` and `download_files`. -/
structure RpmBuildEnv where
  createDirs : List String → Except String Unit
  exec : String → Option String → Except String (List String)
  copyFileInto : String → Except String Unit
  downloadFiles : String → String → Except String Unit

/-- The outcome of a successful `build_rpm`: the artifact path returned
to the caller, together with the `%files` entries that were placed into
the rendered spec. -/
structure RpmBuildResult where
  artifact : String
  specFiles : List String
deriving DecidableEq, Repr

/-- `BuildContainerCtx::build_rpm` (`rpm.rs:12-166`): prepare the
`rpmbuild` tree, stage and archive the install tree, enumerate the
depth-1 files and directories of `container_out_dir` via `find`, render
and upload the spec, run `rpmbuild -bb`, download the produced RPMs and
return `{output_dir}/{name}-{version}-{release}.{arch}.rpm`. -/
def buildRpm (env : RpmBuildEnv) (m : Metadata)
    (containerOutDir outputDir : String) : Except String RpmBuildResult := do
  let name := m.name ++ "-" ++ m.version
  let release := m.release
  let arch := m.rpm_arch
  let buildroot_name := name ++ "-" ++ release ++ "." ++ arch
  let source_tar := name ++ ".tar.gz"
  let base_path := "/root/rpmbuild"
  let specs := base_path ++ "/SPECS"
  let sources := base_path ++ "/SOURCES"
  let rpms := base_path ++ "/RPMS"
  let rpms_arch := rpms ++ "/" ++ arch
  let srpms := base_path ++ "/SRPMS"
  let tmp_buildroot := "/tmp/" ++ buildroot_name
  let source_tar_path := sources ++ "/" ++ source_tar
  env.createDirs [specs, sources, rpms, rpms_arch, srpms]
  _ ← env.exec ("cp -rv " ++ containerOutDir ++ " " ++ tmp_buildroot) none
  _ ← env.exec ("tar -zcvf " ++ source_tar_path ++ " .") (some tmp_buildroot)
  let filesOut ← env.exec "find . -type f -maxdepth 1 -name \x22*\x22"
    (some containerOutDir)
  let files := processFindOutput filesOut
  let dirsOut ← env.exec "find . -type d -maxdepth 1 -name \x22*\x22"
    (some containerOutDir)
  let dirs := processFindOutput dirsOut
  let spec_file := m.name ++ ".spec"
  let spec_tar_path := specs ++ "/" ++ name ++ "-spec.tar"
  env.copyFileInto spec_tar_path
  _ ← env.exec ("tar -xvf " ++ spec_tar_path ++ " -C " ++ specs) none
  _ ← env.exec ("rpmbuild -bb " ++ specs ++ "/" ++ spec_file) none
  env.downloadFiles rpms_arch outputDir
  pure { artifact := outputDir ++ "/" ++ buildroot_name ++ ".rpm"
         specFiles := rpmSpecFilesSection files dirs }

/-! ## Spec-side predicates and concrete sample values -/

/-- The `$PKGER_BLD_DIR` variable as a character list. -/
def bldVar : List Char := "$PKGER_BLD_DIR".toList

/-- The `$PKGER_OUT_DIR` variable as a character list. -/
def outVar : List Char := "$PKGER_OUT_DIR".toList

/-- A string without a `'$'` character (canonical container paths are
such strings). -/
def noDollar (s : String) : Prop := '$' ∉ s.toList

instance (s : String) : Decidable (noDollar s) := by
  unfold noDollar
  infer_instance

/-- The claim's step filter, written from the spec's words (§4.5 step 3
and §8.3/§8.4): the image filter permits unless an allow-list excludes
the current image and no target filter is present; the target filter
permits iff it is absent or equals the current build target. -/
def stepPermitsSpec (c : Command) (t : RecipeTarget) : Bool :=
  (match c.images with
   | some imgs => imgs.contains t.image || c.target.isSome
   | none => true)
  && (match c.target with
      | none => true
      | some f => f = t.build_target)

/-- A sample recipe target (used to instantiate proved claims). -/
def sampleTarget : RecipeTarget :=
  { recipe_name := "hello", image := "centos", build_target := .rpm,
    image_os := some { distro := "centos", version := some "8" } }

/-- A sample image state (used to instantiate proved claims). -/
def sampleImageState : ImageState :=
  { id := "sha256:abc", image := "centos", tag := "centos-1600000000",
    os := { distro := "centos", version := some "8" },
    timestamp := 1600000000000000000, details := "details",
    deps := ["gcc", "make"], simple := true }

/-- A sample persisted store with one entry. -/
def sampleImagesState : ImagesState :=
  { images := [(sampleTarget, sampleImageState)],
    state_file := ".pkger.state" }

/-- A filesystem holding one (empty) state file. -/
def sampleFS : FS :=
  fun p => if p = ".pkger.state" then some [] else none

/-- The empty filesystem. -/
def fsEmpty : FS := fun _ => none

/-- A metadata value with everything empty except the `arch` field. -/
def mkArchMetadata (arch : Option String) : Metadata :=
  { name := "hello", version := "1.0", description := "", license := "",
    images := [], maintainer := none, arch := arch, source := none,
    git := none, skip_default_deps := none, exclude := none,
    group := none, build_depends := none, depends := none,
    conflicts := none, provides := none, deb := none, rpm := none }

/-- An RPM block carrying only `release = "3"`. -/
def rpmInfoRelease3 : RpmInfo :=
  { obsoletes := none, release := some "3", epoch := none,
    vendor := none, icon := none, summary := none, pre_script := none,
    post_script := none, preun_script := none, postun_script := none,
    config_noreplace := none }

/-- The metadata of scenario S2 (`hello` 1.0, arch `aarch64`,
`rpm.release = "3"`). -/
def helloRpmMetadata : Metadata :=
  { mkArchMetadata (some "aarch64") with rpm := some rpmInfoRelease3 }

/-- An RPM-build environment whose operations all succeed; exec
returns one line of output. -/
def okRpmEnv : RpmBuildEnv :=
  { createDirs := fun _ => .ok ()
    exec := fun _ _ => .ok ["./foo\n"]
    copyFileInto := fun _ => .ok ()
    downloadFiles := fun _ _ => .ok () }

/-- A docker handle whose inspect always fails with a connection error. -/
def downDocker : Docker :=
  { inspect := fun _ => .error .connectionFailed
    detectOs := fun _ => .error .connectionFailed }

/-- A docker handle whose calls all succeed. -/
def okDocker : Docker :=
  { inspect := fun _ => .ok "details"
    detectOs := fun _ => .ok { distro := "centos", version := some "8" } }

/-- A script with three steps exercising the image and target filters:
an unfiltered step, a step excluded by its image allow-list, and a step
whose image allow-list excludes the target but whose target filter
matches. -/
def sampleScript : Script :=
  { working_dir := none, shell := none,
    steps :=
      [ { cmd := "make", images := none, target := none },
        { cmd := "yum-only", images := some ["centos"], target := none },
        { cmd := "rpm-step", images := some ["centos"], target := some .rpm } ] }

/-- A build context for an `ubuntu`/`deb` target. -/
def ubuntuCtx : BuildCtx :=
  { container_bld_dir := "/tmp/hello-build"
    container_out_dir := "/tmp/hello-out"
    target := { recipe_name := "hello", image := "ubuntu",
                build_target := .deb, image_os := none }
    recipe :=
      { metadata := mkArchMetadata (some "amd64")
        configure_script := none
        build_script :=
          { working_dir := none, shell := none,
            steps := [{ cmd := "make", images := none, target := none }] }
        install_script := none } }

/-- An exec oracle that succeeds on everything. -/
def allOkExec : ExecOpts → Except BuildStepError Unit := fun _ => .ok ()

/-- The error of the failing sample step. -/
def boomErr : BuildStepError :=
  { cmd := "boom", exit_code := 2, errOutput := ["boom failed"] }

/-- An exec oracle that fails exactly on the command `"boom"`. -/
def boomExec : ExecOpts → Except BuildStepError Unit := fun o =>
  if o.cmd = "boom" then .error boomErr else .ok ()

/-- A build context whose build phase contains a failing step followed
by another step, and which has configure and install phases. -/
def boomCtx : BuildCtx :=
  { container_bld_dir := "/tmp/hello-build"
    container_out_dir := "/tmp/hello-out"
    target := { recipe_name := "hello", image := "centos",
                build_target := .rpm, image_os := none }
    recipe :=
      { metadata := mkArchMetadata (some "amd64")
        configure_script := some
          { working_dir := none, shell := none,
            steps := [{ cmd := "autoreconf", images := none, target := none }] }
        build_script :=
          { working_dir := none, shell := none,
            steps :=
              [ { cmd := "make", images := none, target := none },
                { cmd := "boom", images := none, target := none },
                { cmd := "after-boom", images := none, target := none } ] }
        install_script := some
          { working_dir := none, shell := none,
            steps := [{ cmd := "make install", images := none, target := none }] } } }

/-! ## Lemmas about `rustReplace` (working-directory substitution) -/

theorem rustReplace_nil (pat repl : List Char) :
    rustReplace pat repl [] = [] := by
  rw [rustReplace]

theorem rustReplace_cons (pat repl : List Char) (c : Char) (rest : List Char) :
    rustReplace pat repl (c :: rest) =
      if pat.isPrefixOf (c :: rest) && !pat.isEmpty then
        repl ++ rustReplace pat repl (rest.drop (pat.length - 1))
      else
        c :: rustReplace pat repl rest := by
  conv_lhs => rw [rustReplace]

theorem isPrefixOf_self_append (l t : List Char) :
    l.isPrefixOf (l ++ t) = true := by
  induction l with
  | nil => simp [List.isPrefixOf]
  | cons x l ih => simp [List.isPrefixOf, ih]

theorem isPrefixOf_append_of_le (l t r : List Char) (h : l.length ≤ t.length) :
    l.isPrefixOf (t ++ r) = l.isPrefixOf t := by
  induction l generalizing t with
  | nil => simp [List.isPrefixOf]
  | cons x l ih =>
    cases t with
    | nil => simp at h
    | cons y t =>
      simp only [List.cons_append, List.isPrefixOf, List.append_eq]
      rw [ih t (by simpa using h)]

theorem rustReplace_skip (pt repl a s : List Char) (ha : '$' ∉ a) :
    rustReplace ('$' :: pt) repl (a ++ s) =
      a ++ rustReplace ('$' :: pt) repl s := by
  induction a with
  | nil => simp
  | cons c a ih =>
    have hc : ¬ ('$' = c) := by
      intro h
      exact ha (by simp [← h])
    have ha' : '$' ∉ a := fun h => ha (List.mem_cons_of_mem _ h)
    rw [List.cons_append, rustReplace_cons]
    have hfalse : ('$' :: pt).isPrefixOf (c :: (a ++ s)) = false := by
      simp [List.isPrefixOf]
      intro h
      exact absurd h hc
    rw [hfalse]
    simp [ih ha']

theorem rustReplace_hit (pt repl s : List Char) :
    rustReplace ('$' :: pt) repl (('$' :: pt) ++ s) =
      repl ++ rustReplace ('$' :: pt) repl s := by
  rw [List.cons_append, rustReplace_cons]
  have htrue : ('$' :: pt).isPrefixOf ('$' :: (pt ++ s)) = true := by
    simp [List.isPrefixOf, isPrefixOf_self_append pt s]
  rw [htrue]
  simp [List.drop_left]

theorem rustReplace_of_not_mem (pt repl s : List Char) (hs : '$' ∉ s) :
    rustReplace ('$' :: pt) repl s = s := by
  have h := rustReplace_skip pt repl s [] hs
  simpa [rustReplace_nil] using h

theorem rustReplace_skip_var (pt ot repl s : List Char) (hot : '$' ∉ ot)
    (hno : ('$' :: pt).isPrefixOf (('$' :: ot) ++ s) = false) :
    rustReplace ('$' :: pt) repl (('$' :: ot) ++ s) =
      ('$' :: ot) ++ rustReplace ('$' :: pt) repl s := by
  rw [List.cons_append, rustReplace_cons]
  rw [List.cons_append] at hno
  rw [hno]
  simp [rustReplace_skip pt repl ot s hot]

/-! ## Lemmas about `splitWs` and the `find`-output pipeline -/

theorem splitWs_nil : splitWs [] = [] := by
  rw [splitWs]

theorem splitWs_cons (c : Char) (rest : List Char) :
    splitWs (c :: rest) =
      if isAsciiWs c then splitWs rest
      else (c :: rest.takeWhile (fun x => !isAsciiWs x)) ::
        splitWs (rest.dropWhile (fun x => !isAsciiWs x)) := by
  conv_lhs => rw [splitWs]

theorem takeWhile_all_append (p : α → Bool) (l r : List α)
    (h : ∀ x ∈ l, p x = true) :
    (l ++ r).takeWhile p = l ++ r.takeWhile p := by
  induction l with
  | nil => simp
  | cons x l ih =>
    have hx := h x (by simp)
    simp only [List.cons_append, List.takeWhile_cons, hx]
    simp [ih (fun y hy => h y (by simp [hy]))]

theorem dropWhile_all_append (p : α → Bool) (l r : List α)
    (h : ∀ x ∈ l, p x = true) :
    (l ++ r).dropWhile p = r.dropWhile p := by
  induction l with
  | nil => simp
  | cons x l ih =>
    have hx := h x (by simp)
    simp only [List.cons_append, List.dropWhile_cons, hx]
    simp [ih (fun y hy => h y (by simp [hy]))]

theorem splitWs_token (tok rest : List Char) (hne : tok ≠ [])
    (hws : ∀ x ∈ tok, isAsciiWs x = false) :
    splitWs (tok ++ '\n' :: rest) = tok :: splitWs rest := by
  cases tok with
  | nil => exact absurd rfl hne
  | cons t ts =>
    have ht : isAsciiWs t = false := hws t (by simp)
    have hts : ∀ x ∈ ts, (fun x => !isAsciiWs x) x = true := by
      intro x hx
      simp [hws x (by simp [hx])]
    rw [List.cons_append, splitWs_cons, ht]
    simp only [Bool.false_eq_true, if_false]
    rw [takeWhile_all_append _ ts ('\n' :: rest) hts,
        dropWhile_all_append _ ts ('\n' :: rest) hts]
    have hnl : splitWs (('\n' :: rest).dropWhile (fun x => !isAsciiWs x)) =
        splitWs rest := by
      have : isAsciiWs '\x0a' = true := by decide
      simp [List.dropWhile_cons, this, splitWs_cons]
    have htake : ('\n' :: rest).takeWhile (fun x => !isAsciiWs x) = [] := by
      have : isAsciiWs '\x0a' = true := by decide
      simp [List.takeWhile_cons, this]
    rw [htake, hnl]
    simp

theorem trimStartDots_dotSlash (cs : List Char) :
    trimStartDots ('.' :: '/' :: cs) = '/' :: cs := by
  simp [trimStartDots, List.dropWhile]

theorem processFindOutput_names (names : List String)
    (h : ∀ n ∈ names, ∀ ch ∈ n.toList, isAsciiWs ch = false) :
    processFindOutput (names.map (fun n => "./" ++ n ++ "\n")) =
      names.map (fun n => "/" ++ n) := by
  induction names with
  | nil => simp [processFindOutput, splitWs_nil]
  | cons n ns ih =>
    have hn : ∀ ch ∈ n.toList, isAsciiWs ch = false := h n (by simp)
    have hns : ∀ m ∈ ns, ∀ ch ∈ m.toList, isAsciiWs ch = false :=
      fun m hm => h m (by simp [hm])
    have htok : ∀ x ∈ '.' :: '/' :: n.toList, isAsciiWs x = false := by
      intro x hx
      simp only [List.mem_cons] at hx
      rcases hx with rfl | rfl | h1
      · decide
      · decide
      · exact hn x h1
    have hsplit :
        ("./" ++ n ++ "\n").toList ++
            (List.map String.toList (List.map (fun m => "./" ++ m ++ "\n") ns)).flatten
          = ('.' :: '/' :: n.toList) ++
            '\n' :: (List.map String.toList (List.map (fun m => "./" ++ m ++ "\n") ns)).flatten := by
      simp [String.toList]
    simp only [processFindOutput, List.map_cons, List.flatten_cons] at ih ⊢
    rw [hsplit, splitWs_token _ _ (by simp) htok]
    simp only [List.filter_cons, List.isEmpty_cons, Bool.not_false, if_true]
    simp only [List.map_cons, trimStartDots_dotSlash]
    have hmk : String.mk ('/' :: n.toList) = "/" ++ n := by
      have h2 : '/' :: n.toList = ("/" ++ n).toList := by simp [String.toList]
      rw [h2]
      rfl
    rw [hmk]
    simp only [List.cons.injEq, true_and]
    exact ih hns

/-! ## Round-trip of the state encoding -/

theorem decNat_enc (n : Nat) (rest : List Nat) :
    decNat (encNat n ++ rest) = some (n, rest) := rfl

theorem decBool_enc (b : Bool) (rest : List Nat) :
    decBool (encBool b ++ rest) = some (b, rest) := by
  cases b <;> simp [encBool, decBool]

theorem decInt_enc (i : Int) (rest : List Nat) :
    decInt (encInt i ++ rest) = some (i, rest) := by
  by_cases h : i < 0
  · simp [encInt, decInt, h]
    rw [abs_of_neg h]
    ring
  · simp [encInt, decInt, h]
    omega

theorem decChars_enc (cs : List Char) (rest : List Nat) :
    decChars cs.length (cs.map Char.toNat ++ rest) = some (cs, rest) := by
  induction cs with
  | nil => rfl
  | cons c cs ih =>
    have hv : (Char.toNat c).isValidChar := c.valid
    simp only [List.length_cons, List.map_cons, List.cons_append, decChars,
      dif_pos hv, ih]
    have : Char.ofNatAux (Char.toNat c) hv = c := by
      apply Char.ext
      apply UInt32.ext
      simp [Char.ofNatAux, Char.toNat, UInt32.toNat]
    rw [this]

theorem decString_enc (s : String) (rest : List Nat) :
    decString (encString s ++ rest) = some (s, rest) := by
  simp only [encString, List.cons_append, decString, decChars_enc]
  rfl

theorem decListN_enc (dec : List Nat → Option (α × List Nat))
    (enc : α → List Nat)
    (henc : ∀ x rest, dec (enc x ++ rest) = some (x, rest))
    (l : List α) (rest : List Nat) :
    decListN dec l.length ((l.map enc).flatten ++ rest) = some (l, rest) := by
  induction l with
  | nil => rfl
  | cons x l ih =>
    simp only [List.length_cons, List.map_cons, List.flatten_cons,
      List.append_assoc, decListN, henc, ih]

theorem decList_enc (dec : List Nat → Option (α × List Nat))
    (enc : α → List Nat)
    (henc : ∀ x rest, dec (enc x ++ rest) = some (x, rest))
    (l : List α) (rest : List Nat) :
    decList dec (encList enc l ++ rest) = some (l, rest) := by
  simp only [encList, List.cons_append, decList]
  exact decListN_enc dec enc henc l rest

theorem decOption_enc (dec : List Nat → Option (α × List Nat))
    (enc : α → List Nat)
    (henc : ∀ x rest, dec (enc x ++ rest) = some (x, rest))
    (o : Option α) (rest : List Nat) :
    decOption dec (encOption enc o ++ rest) = some (o, rest) := by
  cases o with
  | none => rfl
  | some x => simp [encOption, decOption, henc]

theorem decBuildTarget_enc (t : BuildTarget) (rest : List Nat) :
    decBuildTarget (encBuildTarget t ++ rest) = some (t, rest) := by
  cases t <;> simp [encBuildTarget, decBuildTarget]

theorem decOs_enc (os : Os) (rest : List Nat) :
    decOs (encOs os ++ rest) = some (os, rest) := by
  simp only [encOs, List.append_assoc, decOs, decString_enc,
    decOption_enc decString encString decString_enc]

theorem decRecipeTarget_enc (t : RecipeTarget) (rest : List Nat) :
    decRecipeTarget (encRecipeTarget t ++ rest) = some (t, rest) := by
  simp only [encRecipeTarget, List.append_assoc, decRecipeTarget,
    decString_enc, decBuildTarget_enc, decOption_enc decOs encOs decOs_enc]

theorem decImageState_enc (st : ImageState) (rest : List Nat) :
    decImageState (encImageState st ++ rest) = some (st, rest) := by
  simp only [encImageState, List.append_assoc, decImageState,
    decString_enc, decOs_enc, decInt_enc,
    decList_enc decString encString decString_enc, decBool_enc]

theorem decPair_enc (decA : List Nat → Option (α × List Nat))
    (encA : α → List Nat) (decB : List Nat → Option (β × List Nat))
    (encB : β → List Nat)
    (hA : ∀ x rest, decA (encA x ++ rest) = some (x, rest))
    (hB : ∀ x rest, decB (encB x ++ rest) = some (x, rest))
    (p : α × β) (rest : List Nat) :
    decPair decA decB (encPair encA encB p ++ rest) = some (p, rest) := by
  simp only [encPair, List.append_assoc, decPair, hA, hB]

theorem decImagesState_enc (s : ImagesState) (rest : List Nat) :
    decImagesState (encImagesState s ++ rest) = some (s, rest) := by
  simp only [encImagesState, List.append_assoc, decImagesState,
    decList_enc _ _ (decPair_enc decRecipeTarget encRecipeTarget
      decImageState encImageState decRecipeTarget_enc decImageState_enc),
    decString_enc]

theorem decImagesState_enc_nil (s : ImagesState) :
    decImagesState (encImagesState s) = some (s, []) := by
  have h := decImagesState_enc s []
  simpa using h

theorem decImagesState_empty : decImagesState [] = none := rfl

/-! ## Lemmas about the script runner -/

theorem runScriptSteps_allOk (steps : List Command) (opts0 : ExecOpts)
    (target : RecipeTarget) (exec : ExecOpts → Except BuildStepError Unit)
    (hok : ∀ o, exec o = .ok ()) :
    runScriptSteps steps opts0 target exec =
      ((steps.filter (fun c => stepExecuted c target)).map
        (fun c => { opts0 with cmd := c.cmd }), none) := by
  induction steps with
  | nil => rfl
  | cons c rest ih =>
    by_cases h : stepExecuted c target
    · simp [runScriptSteps, h, hok, ih, List.filter_cons]
    · simp [runScriptSteps, h, ih, List.filter_cons]

theorem runScriptSteps_error (steps : List Command) (opts0 : ExecOpts)
    (target : RecipeTarget) (exec : ExecOpts → Except BuildStepError Unit)
    (e : BuildStepError)
    (h : (runScriptSteps steps opts0 target exec).2 = some e) :
    ∃ pre o, (runScriptSteps steps opts0 target exec).1 = pre ++ [o] ∧
      exec o = .error e ∧ ∀ q ∈ pre, exec q = .ok () := by
  induction steps with
  | nil => simp [runScriptSteps] at h
  | cons c rest ih =>
    by_cases hc : stepExecuted c target
    · rcases hx : exec { opts0 with cmd := c.cmd } with e2 | u
      · simp only [runScriptSteps, hc, if_true, hx] at h ⊢
        refine ⟨[], { opts0 with cmd := c.cmd }, by simp, ?_, by simp⟩
        rw [hx]
        simp only [Option.some.injEq] at h
        rw [h]
      · simp only [runScriptSteps, hc, if_true, hx] at h ⊢
        rcases ih h with ⟨pre, o, h1, h2, h3⟩
        refine ⟨{ opts0 with cmd := c.cmd } :: pre, o, ?_, h2, ?_⟩
        · simp [h1]
        · intro q hq
          rcases List.mem_cons.mp hq with rfl | hq2
          · cases u; exact hx
          · exact h3 q hq2
    · simp only [runScriptSteps, hc, if_false] at h ⊢
      exact ih h

theorem runScriptSteps_ok_all (steps : List Command) (opts0 : ExecOpts)
    (target : RecipeTarget) (exec : ExecOpts → Except BuildStepError Unit)
    (h : (runScriptSteps steps opts0 target exec).2 = none) :
    ∀ q ∈ (runScriptSteps steps opts0 target exec).1, exec q = .ok () := by
  induction steps with
  | nil => simp [runScriptSteps]
  | cons c rest ih =>
    by_cases hc : stepExecuted c target
    · rcases hx : exec { opts0 with cmd := c.cmd } with e2 | u
      · simp only [runScriptSteps, hc, if_true, hx] at h
        simp at h
      · simp only [runScriptSteps, hc, if_true, hx] at h ⊢
        intro q hq
        rcases List.mem_cons.mp hq with rfl | hq2
        · cases u; exact hx
        · exact ih h q hq2
    · simp only [runScriptSteps, hc, if_false] at h ⊢
      exact ih h

theorem runScriptSteps_opts_shape (steps : List Command) (opts0 : ExecOpts)
    (target : RecipeTarget) (exec : ExecOpts → Except BuildStepError Unit) :
    ∀ q ∈ (runScriptSteps steps opts0 target exec).1,
      q.working_dir = opts0.working_dir ∧ q.shell = opts0.shell := by
  induction steps with
  | nil => simp [runScriptSteps]
  | cons c rest ih =>
    by_cases hc : stepExecuted c target
    · rcases hx : exec { opts0 with cmd := c.cmd } with e2 | u
      · simp only [runScriptSteps, hc, if_true, hx]
        intro q hq
        rcases List.mem_cons.mp hq with rfl | hq2
        · exact ⟨rfl, rfl⟩
        · simp at hq2
      · simp only [runScriptSteps, hc, if_true, hx]
        intro q hq
        rcases List.mem_cons.mp hq with rfl | hq2
        · exact ⟨rfl, rfl⟩
        · exact ih q hq2
    · simp only [runScriptSteps, hc, if_false]
      exact ih

theorem phaseResult_error (ctx : BuildCtx)
    (exec : ExecOpts → Except BuildStepError Unit) (p : Phase)
    (e : BuildStepError) (h : (phaseResult ctx exec p).2 = some e) :
    ∃ pre o, (phaseResult ctx exec p).1 = pre ++ [o] ∧
      exec o = .error e ∧ ∀ q ∈ pre, exec q = .ok () := by
  cases p with
  | configure =>
    cases hs : ctx.recipe.configure_script with
    | none => simp [phaseResult, hs] at h
    | some s =>
      simp only [phaseResult, hs, runScript] at h ⊢
      exact runScriptSteps_error _ _ _ _ _ h
  | build =>
    simp only [phaseResult, runScript] at h ⊢
    exact runScriptSteps_error _ _ _ _ _ h
  | install =>
    cases hs : ctx.recipe.install_script with
    | none => simp [phaseResult, hs] at h
    | some s =>
      simp only [phaseResult, hs, runScript] at h ⊢
      exact runScriptSteps_error _ _ _ _ _ h

theorem phaseResult_ok_all (ctx : BuildCtx)
    (exec : ExecOpts → Except BuildStepError Unit) (p : Phase)
    (h : (phaseResult ctx exec p).2 = none) :
    ∀ q ∈ (phaseResult ctx exec p).1, exec q = .ok () := by
  cases p with
  | configure =>
    cases hs : ctx.recipe.configure_script with
    | none => simp [phaseResult, hs]
    | some s =>
      simp only [phaseResult, hs, runScript] at h ⊢
      exact runScriptSteps_ok_all _ _ _ _ h
  | build =>
    simp only [phaseResult, runScript] at h ⊢
    exact runScriptSteps_ok_all _ _ _ _ h
  | install =>
    cases hs : ctx.recipe.install_script with
    | none => simp [phaseResult, hs]
    | some s =>
      simp only [phaseResult, hs, runScript] at h ⊢
      exact runScriptSteps_ok_all _ _ _ _ h

theorem mem_tagged (l : List ExecOpts) (p : Phase) (q : Phase × ExecOpts)
    (h : q ∈ l.map (fun o => (p, o))) : q.1 = p ∧ q.2 ∈ l := by
  rcases List.mem_map.mp h with ⟨o, ho, rfl⟩
  exact ⟨rfl, ho⟩

theorem pairwise_tagged (l : List ExecOpts) (p : Phase) :
    List.Pairwise (fun a b : Phase × ExecOpts => a.1.idx ≤ b.1.idx)
      (l.map (fun o => (p, o))) := by
  induction l with
  | nil => simp
  | cons x l ih =>
    simp only [List.map_cons, List.pairwise_cons]
    refine ⟨?_, ih⟩
    intro q hq
    rw [(mem_tagged l p q hq).1]

theorem pairwise_tagged_append (l1 l2 : List ExecOpts) (p1 p2 : Phase)
    (hle : p1.idx ≤ p2.idx) :
    List.Pairwise (fun a b : Phase × ExecOpts => a.1.idx ≤ b.1.idx)
      (l1.map (fun o => (p1, o)) ++ l2.map (fun o => (p2, o))) := by
  rw [List.pairwise_append]
  refine ⟨pairwise_tagged l1 p1, pairwise_tagged l2 p2, ?_⟩
  intro a ha b hb
  rw [(mem_tagged l1 p1 a ha).1, (mem_tagged l2 p2 b hb).1]
  exact hle

theorem pairwise_tagged_append3 (l1 l2 l3 : List ExecOpts) (p1 p2 p3 : Phase)
    (h12 : p1.idx ≤ p2.idx) (h13 : p1.idx ≤ p3.idx) (h23 : p2.idx ≤ p3.idx) :
    List.Pairwise (fun a b : Phase × ExecOpts => a.1.idx ≤ b.1.idx)
      (l1.map (fun o => (p1, o)) ++ l2.map (fun o => (p2, o)) ++
        l3.map (fun o => (p3, o))) := by
  rw [List.pairwise_append]
  refine ⟨pairwise_tagged_append l1 l2 p1 p2 h12, pairwise_tagged l3 p3, ?_⟩
  intro a ha b hb
  rw [(mem_tagged l3 p3 b hb).1]
  rcases List.mem_append.mp ha with h | h
  · rw [(mem_tagged l1 p1 a h).1]
    exact h13
  · rw [(mem_tagged l2 p2 a h).1]
    exact h23

theorem replace_var_once_r (pt bl A B : List Char) (hA : '$' ∉ A)
    (hB : '$' ∉ B) :
    rustReplace ('$' :: pt) bl (A ++ (('$' :: pt) ++ B)) = A ++ (bl ++ B) := by
  rw [rustReplace_skip pt bl A _ hA, rustReplace_hit,
    rustReplace_of_not_mem pt bl B hB]

theorem bld_not_prefixOf_out (s : List Char) :
    ('$' :: "PKGER_BLD_DIR".toList).isPrefixOf
      (('$' :: "PKGER_OUT_DIR".toList) ++ s) = false := by
  rw [isPrefixOf_append_of_le _ _ _ (by decide)]
  decide

theorem replace_bld_skips_out_r (bl s : List Char) :
    rustReplace ('$' :: "PKGER_BLD_DIR".toList) bl
      (('$' :: "PKGER_OUT_DIR".toList) ++ s) =
      ('$' :: "PKGER_OUT_DIR".toList) ++
        rustReplace ('$' :: "PKGER_BLD_DIR".toList) bl s :=
  rustReplace_skip_var _ _ _ _ (by decide) (bld_not_prefixOf_out s)

theorem foo_no_ws : ∀ n ∈ ["foo"], ∀ ch ∈ n.toList, isAsciiWs ch = false := by
  intro n hn ch hch
  simp only [List.mem_singleton] at hn
  subst hn
  rw [show "foo".toList = ['f', 'o', 'o'] from rfl] at hch
  simp only [List.mem_cons, List.not_mem_nil, or_false] at hch
  rcases hch with rfl | rfl | rfl <;> decide

theorem processFindOutput_dotfoo : processFindOutput ["./foo\n"] = ["/foo"] := by
  have e : (["./foo\n"] : List String) =
      List.map (fun n => "./" ++ n ++ "\n") ["foo"] := rfl
  have e2 : List.map (fun n => "/" ++ n) ["foo"] = ["/foo"] := rfl
  rw [e, processFindOutput_names ["foo"] foo_no_ws, e2]

theorem processFindOutput_rootdot : processFindOutput [".\n"] = [""] := by
  have e : (List.map String.toList [".\n"]).flatten = ['.'] ++ '\n' :: [] := rfl
  unfold processFindOutput
  rw [e, splitWs_token ['.'] [] (by simp)
    (by intro x hx; simp only [List.mem_singleton] at hx; subst hx; decide),
    splitWs_nil]
  rfl

theorem resolveWorkingDir_some (dir d bld out : String) :
    resolveWorkingDir (some dir) d bld out =
      String.mk (rustReplace "$PKGER_OUT_DIR".toList out.toList
        (rustReplace "$PKGER_BLD_DIR".toList bld.toList dir.toList)) := rfl

/-! ## The claims -/

/-- **C5.** Every step of a phase runs with the same effective working
directory; a phase without `working_dir` uses the phase default
unchanged; and a phase-supplied directory has every occurrence of
`$PKGER_BLD_DIR` replaced by the container build dir and every
occurrence of `$PKGER_OUT_DIR` by the container output dir — a
directory containing one variable, both variables, or one variable
twice resolves accordingly (for canonical `$`-free container paths and
`$`-free surrounding segments). -/
theorem claim_C5 (ctx : BuildCtx) (script : Script) (dDir : String)
    (exec : ExecOpts → Except BuildStepError Unit) (a b c : String)
    (ha : noDollar a) (hb : noDollar b) (hc : noDollar c)
    (hbld : noDollar ctx.container_bld_dir)
    (hout : noDollar ctx.container_out_dir) :
    (∀ q ∈ (runScript script dDir ctx exec).1,
      q.working_dir = some (resolveWorkingDir script.working_dir dDir
        ctx.container_bld_dir ctx.container_out_dir)) ∧
    resolveWorkingDir none dDir ctx.container_bld_dir ctx.container_out_dir
      = dDir ∧
    resolveWorkingDir (some (a ++ "$PKGER_BLD_DIR" ++ b)) dDir
        ctx.container_bld_dir ctx.container_out_dir =
      a ++ ctx.container_bld_dir ++ b ∧
    resolveWorkingDir (some (a ++ "$PKGER_OUT_DIR" ++ b)) dDir
        ctx.container_bld_dir ctx.container_out_dir =
      a ++ ctx.container_out_dir ++ b ∧
    resolveWorkingDir
        (some (a ++ "$PKGER_BLD_DIR" ++ b ++ "$PKGER_OUT_DIR" ++ c)) dDir
        ctx.container_bld_dir ctx.container_out_dir =
      a ++ ctx.container_bld_dir ++ b ++ ctx.container_out_dir ++ c ∧
    resolveWorkingDir
        (some (a ++ "$PKGER_BLD_DIR" ++ b ++ "$PKGER_BLD_DIR" ++ c)) dDir
        ctx.container_bld_dir ctx.container_out_dir =
      a ++ ctx.container_bld_dir ++ b ++ ctx.container_bld_dir ++ c := by
  have ha' : '$' ∉ a.toList := ha
  have hb' : '$' ∉ b.toList := hb
  have hc' : '$' ∉ c.toList := hc
  have hbld' : '$' ∉ ctx.container_bld_dir.toList := hbld
  have hout' : '$' ∉ ctx.container_out_dir.toList := hout
  have ebld : "$PKGER_BLD_DIR".toList = '$' :: "PKGER_BLD_DIR".toList := rfl
  have eout : "$PKGER_OUT_DIR".toList = '$' :: "PKGER_OUT_DIR".toList := rfl
  refine ⟨?_, rfl, ?_, ?_, ?_, ?_⟩
  · intro q hq
    unfold runScript at hq
    exact (runScriptSteps_opts_shape _ _ _ _ q hq).1
  · rw [resolveWorkingDir_some]
    have e1 : (a ++ "$PKGER_BLD_DIR" ++ b).toList =
        a.toList ++ ("$PKGER_BLD_DIR".toList ++ b.toList) := by
      simp [String.toList]
    rw [e1, ebld, replace_var_once_r _ _ _ _ ha' hb', eout,
      rustReplace_of_not_mem _ _ _ (by
        simp only [List.mem_append]
        push_neg
        exact ⟨ha', hbld', hb'⟩)]
    have e2 : a.toList ++ (ctx.container_bld_dir.toList ++ b.toList) =
        (a ++ ctx.container_bld_dir ++ b).toList := by
      simp [String.toList]
    rw [e2]
    rfl
  · rw [resolveWorkingDir_some]
    have e1 : (a ++ "$PKGER_OUT_DIR" ++ b).toList =
        a.toList ++ ("$PKGER_OUT_DIR".toList ++ b.toList) := by
      simp [String.toList]
    rw [e1, ebld, eout, rustReplace_skip _ _ _ _ ha',
      replace_bld_skips_out_r, rustReplace_of_not_mem _ _ _ hb',
      replace_var_once_r _ _ _ _ ha' hb']
    have e2 : a.toList ++ (ctx.container_out_dir.toList ++ b.toList) =
        (a ++ ctx.container_out_dir ++ b).toList := by
      simp [String.toList]
    rw [e2]
    rfl
  · rw [resolveWorkingDir_some]
    have e1 : (a ++ "$PKGER_BLD_DIR" ++ b ++ "$PKGER_OUT_DIR" ++ c).toList =
        a.toList ++ ("$PKGER_BLD_DIR".toList ++
          (b.toList ++ ("$PKGER_OUT_DIR".toList ++ c.toList))) := by
      simp [String.toList]
    rw [e1, ebld, eout, rustReplace_skip _ _ _ _ ha', rustReplace_hit,
      rustReplace_skip _ _ _ _ hb', replace_bld_skips_out_r,
      rustReplace_of_not_mem _ _ _ hc',
      rustReplace_skip _ _ _ _ ha', rustReplace_skip _ _ _ _ hbld',
      rustReplace_skip _ _ _ _ hb', rustReplace_hit,
      rustReplace_of_not_mem _ _ _ hc']
    have e2 : a.toList ++ (ctx.container_bld_dir.toList ++
        (b.toList ++ (ctx.container_out_dir.toList ++ c.toList))) =
        (a ++ ctx.container_bld_dir ++ b ++ ctx.container_out_dir ++
          c).toList := by
      simp [String.toList]
    rw [e2]
    rfl
  · rw [resolveWorkingDir_some]
    have e1 : (a ++ "$PKGER_BLD_DIR" ++ b ++ "$PKGER_BLD_DIR" ++ c).toList =
        a.toList ++ ("$PKGER_BLD_DIR".toList ++
          (b.toList ++ ("$PKGER_BLD_DIR".toList ++ c.toList))) := by
      simp [String.toList]
    rw [e1, ebld, eout, rustReplace_skip _ _ _ _ ha', rustReplace_hit,
      rustReplace_skip _ _ _ _ hb', rustReplace_hit,
      rustReplace_of_not_mem _ _ _ hc',
      rustReplace_of_not_mem _ _ _ (by
        simp only [List.mem_append]
        push_neg
        exact ⟨ha', hbld', hb', hbld', hc'⟩)]
    have e2 : a.toList ++ (ctx.container_bld_dir.toList ++
        (b.toList ++ (ctx.container_bld_dir.toList ++ c.toList))) =
        (a ++ ctx.container_bld_dir ++ b ++ ctx.container_bld_dir ++
          c).toList := by
      simp [String.toList]
    rw [e2]
    rfl

theorem claim_C5_witness :
    noDollar "/src" ∧ noDollar "/sub" ∧ noDollar "/x" ∧
    noDollar ubuntuCtx.container_bld_dir ∧
    noDollar ubuntuCtx.container_out_dir ∧
    resolveWorkingDir (some ("/src" ++ "$PKGER_BLD_DIR" ++ "/sub")) "/d"
        ubuntuCtx.container_bld_dir ubuntuCtx.container_out_dir =
      "/src" ++ ubuntuCtx.container_bld_dir ++ "/sub" ∧
    resolveWorkingDir
        (some ("/src" ++ "$PKGER_BLD_DIR" ++ "/sub" ++ "$PKGER_OUT_DIR" ++
          "/x")) "/d"
        ubuntuCtx.container_bld_dir ubuntuCtx.container_out_dir =
      "/src" ++ ubuntuCtx.container_bld_dir ++ "/sub" ++
        ubuntuCtx.container_out_dir ++ "/x" := by
  have h := claim_C5 ubuntuCtx sampleScript "/d" allOkExec "/src" "/sub" "/x"
    (by decide) (by decide) (by decide) (by decide) (by decide)
  exact ⟨by decide, by decide, by decide, by decide, by decide,
    h.2.2.1, h.2.2.2.2.1⟩

/-- **C6.** `deb_arch()` and `rpm_arch()` are deterministic pure
functions of the `arch` field: `amd64`/`x86_64` map to `amd64`/`x86_64`,
`x86`/`i386` map to `i386`/`x86`, an absent arch yields `all`/`noarch`,
and any other arch string is returned unchanged by both. -/
theorem claim_C6 (m : Metadata) :
    ((m.arch = some "amd64" ∨ m.arch = some "x86_64") →
      m.deb_arch = "amd64" ∧ m.rpm_arch = "x86_64") ∧
    ((m.arch = some "x86" ∨ m.arch = some "i386") →
      m.deb_arch = "i386" ∧ m.rpm_arch = "x86") ∧
    (m.arch = none → m.deb_arch = "all" ∧ m.rpm_arch = "noarch") ∧
    (∀ a, m.arch = some a → a ≠ "amd64" → a ≠ "x86_64" → a ≠ "x86" →
      a ≠ "i386" → m.deb_arch = a ∧ m.rpm_arch = a) ∧
    (∀ m2 : Metadata, m2.arch = m.arch →
      m2.deb_arch = m.deb_arch ∧ m2.rpm_arch = m.rpm_arch) := by
  refine ⟨?_, ?_, ?_, ?_, ?_⟩
  · rintro (h | h) <;> simp [Metadata.deb_arch, Metadata.rpm_arch, h]
  · rintro (h | h) <;> simp [Metadata.deb_arch, Metadata.rpm_arch, h]
  · intro h
    simp [Metadata.deb_arch, Metadata.rpm_arch, h]
  · intro a ha h1 h2 h3 h4
    simp [Metadata.deb_arch, Metadata.rpm_arch, ha, h1, h2, h3, h4]
  · intro m2 h
    constructor <;>
      (simp only [Metadata.deb_arch, Metadata.rpm_arch]; rw [h])

theorem claim_C6_witness :
    ((mkArchMetadata (some "amd64")).arch = some "amd64" ∨
      (mkArchMetadata (some "amd64")).arch = some "x86_64") ∧
    (mkArchMetadata (some "amd64")).deb_arch = "amd64" ∧
    (mkArchMetadata (some "amd64")).rpm_arch = "x86_64" ∧
    (mkArchMetadata (some "aarch64")).deb_arch = "aarch64" := by
  have h1 := (claim_C6 (mkArchMetadata (some "amd64"))).1 (Or.inl rfl)
  have h2 := (claim_C6 (mkArchMetadata (some "aarch64"))).2.2.2.1 "aarch64"
    rfl (by decide) (by decide) (by decide) (by decide)
  exact ⟨Or.inl rfl, h1.1, h1.2, h2.1⟩

/-- **C9.** `ImageState::exists` returns a plain boolean: a successful
runtime inspect yields `true`, and every inspect failure — a connection
error as much as a missing image — yields `false`. -/
theorem claim_C9 (st : ImageState) (docker : Docker) :
    (∀ d, docker.inspect st.id = .ok d → st.exists docker = true) ∧
    (∀ e, docker.inspect st.id = .error e → st.exists docker = false) := by
  constructor
  · intro d h
    simp [ImageState.exists, h]
  · intro e h
    simp [ImageState.exists, h]

theorem claim_C9_witness :
    downDocker.inspect sampleImageState.id = .error .connectionFailed ∧
    sampleImageState.exists downDocker = false :=
  ⟨rfl, (claim_C9 sampleImageState downDocker).2 .connectionFailed rfl⟩

/-- **C10.** `ImageState::new` never fails because of the timestamp:
the computed image name is `{image}-{seconds since the Unix epoch}`, a
timestamp before the epoch saturates to `0` (name `{image}-0`), and
whether `new` succeeds is independent of the timestamp value. -/
theorem claim_C10 (id : String) (target : RecipeTarget) (tag : String)
    (t t2 : Int) (docker : Docker) (deps : List String) (simple : Bool) :
    (t < 0 → imageStateNameFor target.image t = target.image ++ "-0") ∧
    (0 ≤ t → imageStateNameFor target.image t =
      target.image ++ "-" ++ toString (t.toNat / 1000000000)) ∧
    ((ImageState.new id target tag t docker deps simple).isOk =
      (ImageState.new id target tag t2 docker deps simple).isOk) := by
  refine ⟨?_, ?_, ?_⟩
  · intro h
    unfold imageStateNameFor timestampSecs
    rw [if_pos h, String.append_assoc]
    rfl
  · intro h
    unfold imageStateNameFor timestampSecs
    rw [if_neg (by omega)]
  · unfold ImageState.new
    cases hos : target.image_os with
    | some os =>
      cases hin : docker.inspect id <;>
        simp [hos, hin, bind, Except.bind, pure, Except.pure, Except.isOk,
          Except.toBool]
    | none =>
      cases hdet : docker.detectOs id with
      | error e =>
        simp [hos, hdet, bind, Except.bind, pure, Except.pure, Except.isOk,
          Except.toBool]
      | ok os =>
        cases hin : docker.inspect id <;>
          simp [hos, hdet, hin, bind, Except.bind, pure, Except.pure,
            Except.isOk, Except.toBool]

theorem claim_C10_witness :
    ((-5 : Int) < 0) ∧
    imageStateNameFor sampleTarget.image (-5) = sampleTarget.image ++ "-0" ∧
    (ImageState.new "sha256:abc" sampleTarget "tag" (-5) okDocker
        ["gcc"] true).isOk =
      (ImageState.new "sha256:abc" sampleTarget "tag" 1600000000000000000
        okDocker ["gcc"] true).isOk := by
  have h := claim_C10 "sha256:abc" sampleTarget "tag" (-5) 1600000000000000000
    okDocker ["gcc"] true
  exact ⟨by decide, h.1 (by decide), h.2.2⟩

/-- **C4.** Loading the image state store from a path with no file
creates the (empty) file and returns the empty map with that path as
`state_file`; loading an existing file whose contents fail to decode —
including one with trailing garbage — is an error, never an empty or
partial map.  The empty byte string (a freshly created state file) is
such an undecodable content. -/
theorem claim_C4 (path : String) (fs : FS) :
    (fs path = none →
      ImagesState.try_from_path path fs =
        .ok ({ images := [], state_file := path }, fsWrite fs path [])) ∧
    (∀ bs, fs path = some bs → decImagesState bs = none →
      ImagesState.try_from_path path fs = .error .decodeFailed) ∧
    (∀ bs st rest, fs path = some bs → decImagesState bs = some (st, rest) →
      rest ≠ [] → ImagesState.try_from_path path fs = .error .decodeFailed) ∧
    decImagesState [] = none := by
  refine ⟨?_, ?_, ?_, rfl⟩
  · intro h
    unfold ImagesState.try_from_path
    rw [h]
  · intro bs h hdec
    unfold ImagesState.try_from_path
    rw [h]
    simp [hdec]
  · intro bs st rest h hdec hne
    cases rest with
    | nil => exact absurd rfl hne
    | cons x xs =>
      unfold ImagesState.try_from_path
      rw [h]
      simp [hdec]

theorem claim_C4_witness :
    fsEmpty ".pkger.state" = none ∧
    ImagesState.try_from_path ".pkger.state" fsEmpty =
      .ok ({ images := [], state_file := ".pkger.state" },
        fsWrite fsEmpty ".pkger.state" []) ∧
    sampleFS ".pkger.state" = some [] ∧
    ImagesState.try_from_path ".pkger.state" sampleFS =
      .error .decodeFailed := by
  refine ⟨rfl, (claim_C4 ".pkger.state" fsEmpty).1 rfl, rfl, ?_⟩
  exact (claim_C4 ".pkger.state" sampleFS).2.1 [] rfl rfl

/-- **C3.** For a store whose state file exists, `save` overwrites the
file with the complete encoding of the store (one atomic update of the
path's contents in this filesystem model), and loading the same path
afterwards succeeds and yields the very same store — in particular a
map equal to `S.images`. -/
theorem claim_C3 (S : ImagesState) (fs : FS)
    (h : (fs S.state_file).isSome = true) :
    (S.save fs) S.state_file = some (encImagesState S) ∧
    ImagesState.try_from_path S.state_file (S.save fs) =
      .ok (S, S.save fs) := by
  rcases Option.isSome_iff_exists.mp h with ⟨bs, hbs⟩
  have hsave : S.save fs = fsWrite fs S.state_file (encImagesState S) := by
    unfold ImagesState.save
    rw [hbs]
  constructor
  · rw [hsave]
    simp [fsWrite]
  · rw [hsave]
    unfold ImagesState.try_from_path
    simp [fsWrite, decImagesState_enc_nil]

/-- **C1.** A step is executed iff its filters permit: the code's
filter (`stepExecuted`, the guard sequence of `run_script!`) coincides
with the claim's predicate (`stepPermitsSpec` — image allow-list
permits, or is overridden by a target filter, and the target filter (if
any) equals the current build target); consequently, when every exec
succeeds, the commands a phase runs are exactly the permitted steps in
declared order. -/
theorem claim_C1 (script : Script) (defaultDir : String) (ctx : BuildCtx)
    (exec : ExecOpts → Except BuildStepError Unit)
    (hok : ∀ o, exec o = .ok ()) :
    (∀ c : Command, stepExecuted c ctx.target = stepPermitsSpec c ctx.target) ∧
    (runScript script defaultDir ctx exec).1.map (fun o => o.cmd) =
      (script.steps.filter (fun c => stepPermitsSpec c ctx.target)).map
        (fun c => c.cmd) := by
  have hpred : ∀ c : Command,
      stepExecuted c ctx.target = stepPermitsSpec c ctx.target := by
    intro c
    rcases c with ⟨cmd, images, tgt⟩
    cases images <;> cases tgt <;>
      simp [stepExecuted, stepPermitsSpec, Command.has_target_specified,
        Command.should_run_on]
  refine ⟨hpred, ?_⟩
  unfold runScript
  rw [runScriptSteps_allOk _ _ _ _ hok]
  rw [show (fun c => stepExecuted c ctx.target) =
    (fun c => stepPermitsSpec c ctx.target) from funext hpred]
  simp [List.map_map, Function.comp]

theorem claim_C1_witness :
    (∀ o, allOkExec o = .ok ()) ∧
    (runScript sampleScript "/d" ubuntuCtx allOkExec).1.map (fun o => o.cmd) =
      (sampleScript.steps.filter
        (fun c => stepPermitsSpec c ubuntuCtx.target)).map (fun c => c.cmd) ∧
    (sampleScript.steps.filter
      (fun c => stepPermitsSpec c ubuntuCtx.target)).map (fun c => c.cmd) =
      ["make"] := by
  refine ⟨fun o => rfl,
    (claim_C1 sampleScript "/d" ubuntuCtx allOkExec (fun o => rfl)).2, ?_⟩
  rfl

/-- **C2.** `execute_scripts` runs configure, build, install in that
fixed order (the phase tags along the trace are monotone); when it
surfaces an error, the trace ends at the failing step (every earlier
attempt succeeded, nothing later ran); and in particular a failure in
the build phase (with configure passing) surfaces that error and no
install step is ever attempted. -/
theorem claim_C2 (ctx : BuildCtx)
    (exec : ExecOpts → Except BuildStepError Unit) :
    List.Pairwise (fun a b : Phase × ExecOpts => a.1.idx ≤ b.1.idx)
      (executeScripts ctx exec).1 ∧
    (∀ e, (executeScripts ctx exec).2 = some e →
      ∃ pre p o, (executeScripts ctx exec).1 = pre ++ [(p, o)] ∧
        exec o = .error e ∧ ∀ q ∈ pre, exec q.2 = .ok ()) ∧
    (∀ e, (phaseResult ctx exec Phase.configure).2 = none →
      (phaseResult ctx exec Phase.build).2 = some e →
      (executeScripts ctx exec).2 = some e ∧
        ∀ q ∈ (executeScripts ctx exec).1, q.1 ≠ Phase.install) := by
  refine ⟨?_, ?_, ?_⟩
  · cases hconf : (phaseResult ctx exec Phase.configure).2 with
    | some e1 =>
      simp only [executeScripts, hconf]
      exact pairwise_tagged _ _
    | none =>
      cases hbuild : (phaseResult ctx exec Phase.build).2 with
      | some e1 =>
        simp only [executeScripts, hconf, hbuild]
        exact pairwise_tagged_append _ _ _ _ (by decide)
      | none =>
        simp only [executeScripts, hconf, hbuild]
        exact pairwise_tagged_append3 _ _ _ _ _ _
          (by decide) (by decide) (by decide)
  · intro e h
    cases hconf : (phaseResult ctx exec Phase.configure).2 with
    | some e1 =>
      simp only [executeScripts, hconf] at h ⊢
      simp only [Option.some.injEq] at h
      subst h
      obtain ⟨pre, o, h1, h2, h3⟩ := phaseResult_error ctx exec .configure e1 hconf
      refine ⟨pre.map (fun o => (Phase.configure, o)), .configure, o, ?_, h2, ?_⟩
      · rw [h1]
        simp
      · intro q hq
        exact h3 q.2 (mem_tagged pre .configure q hq).2
    | none =>
      cases hbuild : (phaseResult ctx exec Phase.build).2 with
      | some e1 =>
        simp only [executeScripts, hconf, hbuild] at h ⊢
        simp only [Option.some.injEq] at h
        subst h
        obtain ⟨pre, o, h1, h2, h3⟩ := phaseResult_error ctx exec .build e1 hbuild
        refine ⟨(phaseResult ctx exec Phase.configure).1.map
            (fun o => (Phase.configure, o)) ++
          pre.map (fun o => (Phase.build, o)), .build, o, ?_, h2, ?_⟩
        · rw [h1]
          simp
        · intro q hq
          rcases List.mem_append.mp hq with hq1 | hq1
          · exact phaseResult_ok_all ctx exec .configure hconf q.2
              (mem_tagged _ .configure q hq1).2
          · exact h3 q.2 (mem_tagged pre .build q hq1).2
      | none =>
        simp only [executeScripts, hconf, hbuild] at h ⊢
        obtain ⟨pre, o, h1, h2, h3⟩ := phaseResult_error ctx exec .install e h
        refine ⟨(phaseResult ctx exec Phase.configure).1.map
            (fun o => (Phase.configure, o)) ++
          (phaseResult ctx exec Phase.build).1.map
            (fun o => (Phase.build, o)) ++
          pre.map (fun o => (Phase.install, o)), .install, o, ?_, h2, ?_⟩
        · rw [h1]
          simp
        · intro q hq
          rcases List.mem_append.mp hq with hq1 | hq1
          · rcases List.mem_append.mp hq1 with hq2 | hq2
            · exact phaseResult_ok_all ctx exec .configure hconf q.2
                (mem_tagged _ .configure q hq2).2
            · exact phaseResult_ok_all ctx exec .build hbuild q.2
                (mem_tagged _ .build q hq2).2
          · exact h3 q.2 (mem_tagged pre .install q hq1).2
  · intro e hc hb
    simp only [executeScripts, hc, hb]
    refine ⟨trivial, ?_⟩
    intro q hq
    rcases List.mem_append.mp hq with hq1 | hq1
    · rw [(mem_tagged _ .configure q hq1).1]
      decide
    · rw [(mem_tagged _ .build q hq1).1]
      decide

theorem claim_C2_witness :
    (phaseResult boomCtx boomExec Phase.configure).2 = none ∧
    (phaseResult boomCtx boomExec Phase.build).2 = some boomErr ∧
    (executeScripts boomCtx boomExec).2 = some boomErr ∧
    ∀ q ∈ (executeScripts boomCtx boomExec).1, q.1 ≠ Phase.install := by
  have h1 : (phaseResult boomCtx boomExec Phase.configure).2 = none := rfl
  have h2 : (phaseResult boomCtx boomExec Phase.build).2 = some boomErr := rfl
  have h := (claim_C2 boomCtx boomExec).2.2 boomErr h1 h2
  exact ⟨h1, h2, h.1, h.2⟩

theorem claim_C3_witness :
    (sampleFS sampleImagesState.state_file).isSome = true ∧
    ImagesState.try_from_path sampleImagesState.state_file
        (sampleImagesState.save sampleFS) =
      .ok (sampleImagesState, sampleImagesState.save sampleFS) := by
  have h : (sampleFS sampleImagesState.state_file).isSome = true := rfl
  exact ⟨h, (claim_C3 sampleImagesState sampleFS h).2⟩

/-- **C7 (counterexample).** The claim says an entry listed by `find`
as `./foo` is recorded as `foo`; the code's
`trim_start_matches('.')` strips only the leading dot, recording
`/foo`. -/
theorem claim_C7_counterexample :
    processFindOutput ["./foo\n"] = ["/foo"] ∧ ("/foo" : String) ≠ "foo" :=
  ⟨processFindOutput_dotfoo, by decide⟩

/-- **C7 (amended).** The `%files` entries are the depth-1 entries of
the install tree as tokenized from the `find` output, each with every
leading `'.'` stripped: a depth-1 entry `./name` is recorded as
`/name` (an absolute path), not `name`; and the directory pass's
output also contains the tree root `.` (reported by
`find . -type d -maxdepth 1`), which is recorded as the empty string. -/
theorem claim_C7 (names : List String)
    (h : ∀ n ∈ names, ∀ ch ∈ n.toList, isAsciiWs ch = false) :
    processFindOutput (names.map (fun n => "./" ++ n ++ "\n")) =
      names.map (fun n => "/" ++ n) ∧
    processFindOutput [".\n"] = [""] :=
  ⟨processFindOutput_names names h, processFindOutput_rootdot⟩

theorem claim_C7_witness :
    (∀ n ∈ ["foo"], ∀ ch ∈ n.toList, isAsciiWs ch = false) ∧
    processFindOutput (["foo"].map (fun n => "./" ++ n ++ "\n")) =
      ["foo"].map (fun n => "/" ++ n) :=
  ⟨foo_no_ws, (claim_C7 ["foo"] foo_no_ws).1⟩

/-- **C8.** A successful RPM assembly returns the artifact path
`{output_dir}/{name}-{version}-{release}.{arch}.rpm`, where the release
is the recipe's RPM release (defaulting to `"0"`) and the arch is
`rpm_arch()`. -/
theorem claim_C8 (env : RpmBuildEnv) (m : Metadata) (cod outDir : String)
    (res : RpmBuildResult) (h : buildRpm env m cod outDir = .ok res) :
    res.artifact = outDir ++ "/" ++ m.name ++ "-" ++ m.version ++ "-" ++
      m.rpm_release ++ "." ++ m.rpm_arch ++ ".rpm" := by
  unfold buildRpm at h
  simp only [bind, Except.bind, pure, Except.pure] at h
  repeat' split at h
  all_goals cases h
  all_goals simp [Metadata.release, String.append_assoc]

theorem claim_C8_witness :
    buildRpm okRpmEnv helloRpmMetadata "/co" "out" =
      .ok { artifact := "out/hello-1.0-3.aarch64.rpm",
            specFiles := ["/foo", "/foo"] } ∧
    ({ artifact := "out/hello-1.0-3.aarch64.rpm",
       specFiles := ["/foo", "/foo"] } : RpmBuildResult).artifact =
      "out" ++ "/" ++ helloRpmMetadata.name ++ "-" ++
        helloRpmMetadata.version ++ "-" ++ helloRpmMetadata.rpm_release ++
        "." ++ helloRpmMetadata.rpm_arch ++ ".rpm" := by
  have h : buildRpm okRpmEnv helloRpmMetadata "/co" "out" =
      .ok { artifact := "out/hello-1.0-3.aarch64.rpm",
            specFiles := ["/foo", "/foo"] } := by
    unfold buildRpm
    simp only [okRpmEnv, bind, Except.bind, pure, Except.pure,
      processFindOutput_dotfoo, rpmSpecFilesSection]
    rfl
  exact ⟨h, claim_C8 okRpmEnv helloRpmMetadata "/co" "out" _ h⟩

end Pkger
